import Mathlib

/-!
# Verification of the video sync / VMAF alignment core

Shallow embedding of `scripts/vmaf/video_sync_vmaf.py` (class `VideoSyncVMAF`):
the marker reader `extract_frame_number_with_confidence`, the transition scan
`find_sync_point`, the difference fallback `find_sync_point_fallback`, the
reference locator `find_frame_in_original_video`, the trim seek computation of
`trim_video`, and the alignment-offset portion of `process`.

Python floats are modelled as rationals, machine frame buffers as lists of
single-channel intensity values (the output of the external `cv2.cvtColor`
BGR-to-gray conversion), and the external OCR capability's answer for a frame
as data carried by the frame (a result list, or an exception outcome).
-/

namespace VideoSync

/-- One OCR text region as returned by the recognition capability:
the recognized text (a character list) and its confidence.  The bounding box
is never consulted by the code under verification and is omitted. -/
structure OCRResult where
  text : List Char
  confidence : ℚ
deriving DecidableEq

/-- Outcome of `ocr_reader.readtext` on one frame: a list of results, or a
raised exception (`err`). -/
inductive OCRRead where
  | ok (results : List OCRResult)
  | err
deriving DecidableEq

/-- A decoded video frame: what the recognition capability reports on it, and
its single-channel intensity pixels (the result of the external gray
conversion used by the fallback difference method). -/
structure VideoFrame where
  ocr : OCRRead
  gray : List ℕ
deriving DecidableEq

/-- Python `int(q)` on a number: truncation toward zero. -/
def pyInt (q : ℚ) : ℤ := if 0 ≤ q then ⌊q⌋ else ⌈q⌉

/-- Python `int(q)` where the result is used as a nonnegative frame count. -/
def pyIntNat (q : ℚ) : ℕ := (pyInt q).toNat

/-- Python `round(q)`: round half to even (banker's rounding). -/
def pyRound (q : ℚ) : ℤ :=
  if q - ⌊q⌋ < 1/2 then ⌊q⌋
  else if 1/2 < q - ⌊q⌋ then ⌊q⌋ + 1
  else if ⌊q⌋ % 2 = 0 then ⌊q⌋ else ⌊q⌋ + 1

/-- Python `text.isdigit()` over the digit-only recognition alphabet. -/
def pyIsdigit (t : List Char) : Bool := !t.isEmpty && t.all Char.isDigit

/-- Python `int(text)` for a digit string. -/
def pyDigitsToNat (t : List Char) : ℕ := t.foldl (fun n c => 10 * n + (c.toNat - 48)) 0

/-- Python `max(results, key=lambda x: x[2])`: the first result of maximal
confidence (later results replace the candidate only on a strict increase). -/
def pyMaxByConf : List OCRResult → Option OCRResult
  | [] => none
  | r :: rs => some (rs.foldl (fun best x => if best.confidence < x.confidence then x else best) r)

/-- `extract_frame_number_with_confidence` (lines 191-215): best OCR result of
the frame; a purely numeric text yields its value and confidence; a missing
frame, empty result list, non-digit best text, or recognition exception
yields `(none, 0.0)`. -/
def extract_frame_number_with_confidence (frame : Option VideoFrame) : Option ℕ × ℚ :=
  match frame with
  | none => (none, 0)
  | some f =>
    match f.ocr with
    | OCRRead.err => (none, 0)
    | OCRRead.ok results =>
      match pyMaxByConf results with
      | none => (none, 0)
      | some best =>
        if pyIsdigit best.text then (some (pyDigitsToNat best.text), best.confidence)
        else (none, 0)

/-- The scanning loop of `find_sync_point` (lines 239-274), over the frames
from the seek position.  `fc` is `frame_count`; `lastFn`/`lastConf` are
`last_frame_number`/`last_confidence`.  A qualifying detection
(`confidence > 0.5`) that differs from the remembered qualifying detection
declares the sync point at the current frame's timestamp; the scan gives up
past `(seek + 30) * fps` frames. -/
def syncLoop (fps seek : ℚ) : List VideoFrame → ℕ → Option ℕ → Option ℚ → Option ℚ
  | [], _, _, _ => none
  | f :: fs, fc, lastFn, lastConf =>
    match extract_frame_number_with_confidence (some f) with
    | (some n, conf) =>
      if 1/2 < conf then
        match lastFn, lastConf with
        | some m, some lc =>
          if 1/2 < lc ∧ m ≠ n then some ((fc : ℚ) / fps)
          else if (seek + 30) * fps < ((fc + 1 : ℕ) : ℚ) then none
          else syncLoop fps seek fs (fc + 1) (some n) (some conf)
        | _, _ =>
          if (seek + 30) * fps < ((fc + 1 : ℕ) : ℚ) then none
          else syncLoop fps seek fs (fc + 1) (some n) (some conf)
      else
        if (seek + 30) * fps < ((fc + 1 : ℕ) : ℚ) then none
        else syncLoop fps seek fs (fc + 1) lastFn lastConf
    | (none, _) =>
      if (seek + 30) * fps < ((fc + 1 : ℕ) : ℚ) then none
      else syncLoop fps seek fs (fc + 1) lastFn lastConf

/-- Initial `frame_count`: `int(seek * fps)` when a positive seek was given,
else `0` (lines 229-234). -/
def startCount (fps seek : ℚ) : ℕ := if 0 < seek then pyIntNat (seek * fps) else 0

/-- The transition-scan phase of `find_sync_point`, applied to the frame
sequence from the seek position. -/
def find_sync_scan (fps seek : ℚ) (frames : List VideoFrame) : Option ℚ :=
  syncLoop fps seek frames (startCount fps seek) none none

/-- `np.sum(cv2.absdiff(a, b))` on single-channel frames: the sum of absolute
pixel-wise differences. -/
def diffScore (a b : List ℕ) : ℕ := (List.zipWith (fun x y => max x y - min x y) a b).sum

/-- The loop of `find_sync_point_fallback` (lines 305-323): track the frame
index of maximal consecutive difference; returns `(sync_frame, max_diff)`.
Both loop exits of the source — window reached, or no further frame — return
the same accumulated pair, so the frame-exhaustion case is matched first. -/
def fallbackLoop (analyze : ℕ) :
    List (List ℕ) → ℕ → Option (List ℕ) → ℕ → ℕ → ℕ × ℕ
  | [], _, _, maxDiff, syncFrame => (syncFrame, maxDiff)
  | f :: fs, fc, prev, maxDiff, syncFrame =>
    if fc < analyze then
      match prev with
      | none => fallbackLoop analyze fs (fc + 1) (some f) maxDiff syncFrame
      | some p =>
        if maxDiff < diffScore f p then
          fallbackLoop analyze fs (fc + 1) (some f) (diffScore f p) fc
        else
          fallbackLoop analyze fs (fc + 1) (some f) maxDiff syncFrame
    else (syncFrame, maxDiff)

/-- `find_sync_point_fallback` (lines 284-333): frame-difference analysis over
ten seconds of frames from the seek position; always returns a timestamp. -/
def find_sync_point_fallback (fps seek : ℚ) (frames : List VideoFrame) : ℚ :=
  ((fallbackLoop (startCount fps seek + pyIntNat (fps * 10)) (frames.map VideoFrame.gray)
      (startCount fps seek) none 0 (startCount fps seek)).1 : ℚ) / fps

/-- `find_sync_point` (lines 217-282): the transition scan, falling back to the
difference method when the scan yields nothing. -/
def find_sync_point (fps seek : ℚ) (frames : List VideoFrame) : Option ℚ :=
  match find_sync_scan fps seek frames with
  | some t => some t
  | none => some (find_sync_point_fallback fps seek frames)

/-- Per-frame detection of `find_frame_in_original_video` (lines 437-444):
best OCR result, numeric text only; no confidence threshold. -/
def detect_number (results : List OCRResult) : Option ℕ :=
  match pyMaxByConf results with
  | none => none
  | some best => if pyIsdigit best.text then some (pyDigitsToNat best.text) else none

/-- The scanning loop of `find_frame_in_original_video` (lines 429-458):
return the current `frame_count` on the first exact marker match, `none` once
`limit` frames were examined or the video ends.  Both loop exits of the
source — window reached, or no further frame — yield `none`, so the
frame-exhaustion case is matched first. -/
def findFrameLoop (target limit : ℕ) : List (List OCRResult) → ℕ → Option ℕ
  | [], _ => none
  | f :: fs, fc =>
    if fc < limit then
      if detect_number f = some target then some fc
      else findFrameLoop target limit fs (fc + 1)
    else none

/-- `find_frame_in_original_video` (lines 417-458): scan the reference frames
from time 0 for the first frame whose detected marker equals `target`,
limited to the first sixty seconds. -/
def find_frame_in_original_video (fps : ℚ) (frames : List (List OCRResult)) (target : ℕ) :
    Option ℕ :=
  findFrameLoop target (pyIntNat (fps * 60)) frames 0

/-- `start_time` of `trim_video` (line 515): `max(0, round(offset) + buffer)`. -/
def trim_start_time (offset buffer : ℚ) : ℚ := max 0 ((pyRound offset : ℚ) + buffer)

/-- The seek argument actually passed to the external transcoder (line 523):
`str(int(start_time))`, i.e. the truncated start time. -/
def trim_seek_arg (offset buffer : ℚ) : ℤ := pyInt (trim_start_time offset buffer)

/-- Observable actions of the alignment tail of `process` (lines 685-718). -/
inductive StageEvent where
  | referenceLocate (target : ℕ)
  | saveReferenceFrame (pos target : ℕ)
  | vmafInvoke (offset : ℚ)
deriving DecidableEq

/-- Steps 4-7 of `process` (lines 685-718): given the marker read from the
first trimmed frame, locate it in the reference and derive the VMAF offset
(`found_frame_position / 30.0`, or `0` on any soft failure); returns the
offset together with the trace of stage invocations. -/
def process_alignment (refFps : ℚ) (refFrames : List (List OCRResult))
    (firstFrameNumber : Option ℕ) : ℚ × List StageEvent :=
  match firstFrameNumber with
  | some n =>
    match find_frame_in_original_video refFps refFrames n with
    | some pos =>
        ((pos : ℚ) / 30,
          [StageEvent.referenceLocate n, StageEvent.saveReferenceFrame pos n,
            StageEvent.vmafInvoke ((pos : ℚ) / 30)])
    | none => (0, [StageEvent.referenceLocate n, StageEvent.vmafInvoke 0])
  | none => (0, [StageEvent.vmafInvoke 0])

/-- Spec-side: the value and confidence of a qualifying detection
(marker present, confidence strictly above one half). -/
def qualPair (f : VideoFrame) : Option (ℕ × ℚ) :=
  match extract_frame_number_with_confidence (some f) with
  | (some n, c) => if 1/2 < c then some (n, c) else none
  | (none, _) => none

/-- Spec-side: the most recent qualifying detection over a frame prefix,
threaded from an initial remembered detection `st`. -/
def lastQual (st : Option (ℕ × ℚ)) (l : List VideoFrame) : Option (ℕ × ℚ) :=
  l.foldl (fun acc f => match qualPair f with | some p => some p | none => acc) st

/-- Spec-side: frame `f` triggers a transition given remembered qualifying
detection `st`: `f` carries a qualifying detection whose value differs from
the remembered one. -/
def firesTransition (st : Option (ℕ × ℚ)) (f : VideoFrame) : Bool :=
  match extract_frame_number_with_confidence (some f), st with
  | (some n, c), some (m, _) => decide (1/2 < c) && decide (m ≠ n)
  | _, _ => false

/-- Spec-side: the consecutive-difference scores of a frame window, the first
entry comparing against the predecessor frame `p`. -/
def consDiffs (p : List ℕ) : List (List ℕ) → List ℕ
  | [] => []
  | f :: fs => diffScore f p :: consDiffs f fs

/-- Proof helper: the `fallbackLoop` recursion without its window cutoff. -/
def fallbackRun : List (List ℕ) → ℕ → Option (List ℕ) → ℕ → ℕ → ℕ × ℕ
  | [], _, _, maxDiff, syncFrame => (syncFrame, maxDiff)
  | f :: fs, fc, prev, maxDiff, syncFrame =>
    match prev with
    | none => fallbackRun fs (fc + 1) (some f) maxDiff syncFrame
    | some p =>
      if maxDiff < diffScore f p then fallbackRun fs (fc + 1) (some f) (diffScore f p) fc
      else fallbackRun fs (fc + 1) (some f) maxDiff syncFrame

/-- Proof helper: the running-maximum fold over a difference list. -/
def runFold : List ℕ → ℕ → ℕ → ℕ → ℕ × ℕ
  | [], _, maxDiff, syncFrame => (syncFrame, maxDiff)
  | d :: ds, fc, maxDiff, syncFrame =>
    if maxDiff < d then runFold ds (fc + 1) d fc else runFold ds (fc + 1) maxDiff syncFrame

/-- Example frame whose OCR reading is a single text region. -/
def sampleFrame (t : List Char) (c : ℚ) : VideoFrame := ⟨OCRRead.ok [⟨t, c⟩], []⟩

/-- Example input: the qualifying detection sequence `5, 5, 5, 7, 7, 9`, all
read at confidence `0.9`. -/
def transitionSeq : List VideoFrame :=
  [sampleFrame ['5'] (9/10), sampleFrame ['5'] (9/10), sampleFrame ['5'] (9/10),
    sampleFrame ['7'] (9/10), sampleFrame ['7'] (9/10), sampleFrame ['9'] (9/10)]

end VideoSync

namespace VideoSync

/-- Helper: `lastQual` threads one frame at a time. -/
theorem lastQual_cons (st : Option (ℕ × ℚ)) (f : VideoFrame) (xs : List VideoFrame) :
    lastQual st (f :: xs) =
      lastQual (match qualPair f with | some p => some p | none => st) xs := rfl

/-- Helper: when the first transition over the frames `l`, relative to the
remembered qualifying detection `st`, fires at position `j` within the scan
window, the scan loop answers the timestamp of frame `fc + j`. -/
theorem syncLoop_firesAt (fps seek : ℚ) :
    ∀ (l : List VideoFrame) (j fc : ℕ) (st : Option (ℕ × ℚ)),
      (∀ m lc, st = some (m, lc) → (1/2 : ℚ) < lc) →
      ∀ (hj : j < l.length),
      (∀ t (ht : t < j),
        firesTransition (lastQual st (l.take t)) (l.get ⟨t, ht.trans hj⟩) = false) →
      firesTransition (lastQual st (l.take j)) (l.get ⟨j, hj⟩) = true →
      (j = 0 ∨ ((fc + j : ℕ) : ℚ) ≤ (seek + 30) * fps) →
      syncLoop fps seek l fc (st.map Prod.fst) (st.map Prod.snd) =
        some (((fc + j : ℕ) : ℚ) / fps) := by
  intro l
  induction l with
  | nil =>
    intro j fc st hst hj hpre hfire hwin
    exact absurd hj (by simp)
  | cons f fs ih =>
    intro j fc st hst hj hpre hfire hwin
    rcases hex : extract_frame_number_with_confidence (some f) with ⟨fn, c⟩
    cases j with
    | zero =>
      have hfire0 : firesTransition st f = true := hfire
      cases fn with
      | none => simp [firesTransition, hex] at hfire0
      | some n =>
        cases st with
        | none => simp [firesTransition, hex] at hfire0
        | some p =>
          obtain ⟨m, lc⟩ := p
          have hfire' : (1/2 : ℚ) < c ∧ m ≠ n := by
            simpa [firesTransition, hex] using hfire0
          simp only [syncLoop, hex, Option.map_some']
          rw [if_pos hfire'.1, if_pos ⟨hst m lc rfl, hfire'.2⟩]
          norm_num
    | succ k =>
      have h0 : firesTransition st f = false := hpre 0 (Nat.succ_pos k)
      have hj' : k < fs.length := by simpa using Nat.lt_of_succ_lt_succ hj
      have hwinR : ((fc + (k + 1) : ℕ) : ℚ) ≤ (seek + 30) * fps := by
        rcases hwin with h | h
        · exact absurd h (Nat.succ_ne_zero k)
        · exact h
      have hstep : ¬ (seek + 30) * fps < ((fc + 1 : ℕ) : ℚ) := by
        rw [not_lt]
        have hle : (fc + 1 : ℕ) ≤ fc + (k + 1) := by omega
        exact le_trans (Nat.cast_le.mpr hle) hwinR
      have hwin' : k = 0 ∨ (((fc + 1) + k : ℕ) : ℚ) ≤ (seek + 30) * fps := by
        right
        rw [show fc + 1 + k = fc + (k + 1) from by omega]
        exact hwinR
    -- goal index rewrite shared by every branch below
      rw [show fc + (k + 1) = (fc + 1) + k from by omega]
      cases fn with
      | some n =>
        by_cases hc : (1/2 : ℚ) < c
        · have hq : qualPair f = some (n, c) := by
            simp only [qualPair, hex]
            rw [if_pos hc]
          have hst' : ∀ m' lc', (some (n, c) : Option (ℕ × ℚ)) = some (m', lc') →
              (1/2 : ℚ) < lc' := by
            intro m' lc' h
            cases h
            exact hc
          have hpre' : ∀ t (ht : t < k),
              firesTransition (lastQual (some (n, c)) (fs.take t))
                (fs.get ⟨t, ht.trans hj'⟩) = false := by
            intro t ht
            have h := hpre (t + 1) (Nat.succ_lt_succ ht)
            rw [List.take_succ_cons, lastQual_cons, hq] at h
            exact h
          have hfire' : firesTransition (lastQual (some (n, c)) (fs.take k))
              (fs.get ⟨k, hj'⟩) = true := by
            have h := hfire
            rw [List.take_succ_cons, lastQual_cons, hq] at h
            exact h
          have happ := ih k (fc + 1) (some (n, c)) hst' hj' hpre' hfire' hwin'
          cases st with
          | none =>
            simp only [syncLoop, hex, Option.map_none']
            rw [if_pos hc, if_neg hstep]
            exact happ
          | some p =>
            obtain ⟨m, lc⟩ := p
            by_cases hm : m = n
            · simp only [syncLoop, hex, Option.map_some']
              rw [if_pos hc, if_neg (by simp [hm]), if_neg hstep]
              exact happ
            · exfalso
              simp [firesTransition, hex, hm] at h0
              linarith
        · have hq : qualPair f = none := by
            simp only [qualPair, hex]
            rw [if_neg hc]
          have hpre' : ∀ t (ht : t < k),
              firesTransition (lastQual st (fs.take t))
                (fs.get ⟨t, ht.trans hj'⟩) = false := by
            intro t ht
            have h := hpre (t + 1) (Nat.succ_lt_succ ht)
            rw [List.take_succ_cons, lastQual_cons, hq] at h
            exact h
          have hfire' : firesTransition (lastQual st (fs.take k))
              (fs.get ⟨k, hj'⟩) = true := by
            have h := hfire
            rw [List.take_succ_cons, lastQual_cons, hq] at h
            exact h
          have happ := ih k (fc + 1) st hst hj' hpre' hfire' hwin'
          simp only [syncLoop, hex]
          rw [if_neg hc, if_neg hstep]
          exact happ
      | none =>
        have hq : qualPair f = none := by simp [qualPair, hex]
        have hpre' : ∀ t (ht : t < k),
            firesTransition (lastQual st (fs.take t))
              (fs.get ⟨t, ht.trans hj'⟩) = false := by
          intro t ht
          have h := hpre (t + 1) (Nat.succ_lt_succ ht)
          rw [List.take_succ_cons, lastQual_cons, hq] at h
          exact h
        have hfire' : firesTransition (lastQual st (fs.take k))
            (fs.get ⟨k, hj'⟩) = true := by
          have h := hfire
          rw [List.take_succ_cons, lastQual_cons, hq] at h
          exact h
        have happ := ih k (fc + 1) st hst hj' hpre' hfire' hwin'
        simp only [syncLoop, hex]
        rw [if_neg hstep]
        exact happ

/-- C1: when position `j` carries the first qualifying transition — a
qualifying detection differing from the most recent qualifying detection
before it, any value change counting — and lies in the scan window,
`find_sync_point` declares the sync point at frame `j`'s timestamp. -/
theorem sync_first_transition (fps seek : ℚ) (frames : List VideoFrame) (j : ℕ)
    (hj : j < frames.length)
    (hpre : ∀ t (ht : t < j),
      firesTransition (lastQual none (frames.take t)) (frames.get ⟨t, ht.trans hj⟩) = false)
    (hfire : firesTransition (lastQual none (frames.take j)) (frames.get ⟨j, hj⟩) = true)
    (hwin : j = 0 ∨ ((startCount fps seek + j : ℕ) : ℚ) ≤ (seek + 30) * fps) :
    find_sync_point fps seek frames =
      some (((startCount fps seek + j : ℕ) : ℚ) / fps) := by
  have h := syncLoop_firesAt fps seek frames j (startCount fps seek) none
    (fun m lc hmlc => Option.noConfusion hmlc) hj hpre hfire hwin
  have hscan : find_sync_scan fps seek frames =
      some (((startCount fps seek + j : ℕ) : ℚ) / fps) := h
  simp [find_sync_point, hscan]

/-- Witness for C1: on the detection sequence `5, 5, 5, 7, 7, 9` at
confidence `0.9`, the sync point is the `5 → 7` frame (index 3, at `0.1s`
under 30 fps), not the later `7 → 9` change. -/
theorem sync_first_transition_witness :
    find_sync_point 30 0 transitionSeq = some (((startCount 30 0 + 3 : ℕ) : ℚ) / 30) ∧
      ((startCount 30 0 + 3 : ℕ) : ℚ) / 30 = 1/10 := by
  constructor
  · refine sync_first_transition 30 0 transitionSeq 3 (by norm_num [transitionSeq]) ?_ ?_ ?_
    · intro t ht
      interval_cases t <;>
        norm_num [transitionSeq, sampleFrame, firesTransition, lastQual, qualPair,
          extract_frame_number_with_confidence, pyMaxByConf, pyIsdigit, pyDigitsToNat,
          show ('5').isDigit = true from by decide, show ('5').toNat = 53 from by decide,
          show ('7').isDigit = true from by decide, show ('7').toNat = 55 from by decide,
          show ('9').isDigit = true from by decide, show ('9').toNat = 57 from by decide]
    · norm_num [transitionSeq, sampleFrame, firesTransition, lastQual, qualPair,
        extract_frame_number_with_confidence, pyMaxByConf, pyIsdigit, pyDigitsToNat,
        show ('5').isDigit = true from by decide, show ('5').toNat = 53 from by decide,
        show ('7').isDigit = true from by decide, show ('7').toNat = 55 from by decide,
        show ('9').isDigit = true from by decide, show ('9').toNat = 57 from by decide]
    · exact Or.inr (by norm_num [startCount])
  · norm_num [startCount]

/-- C10: whenever the marker-with-confidence reader returns no marker, the
confidence it returns is exactly zero. -/
theorem none_marker_zero_confidence (frame : Option VideoFrame)
    (h : (extract_frame_number_with_confidence frame).1 = none) :
    (extract_frame_number_with_confidence frame).2 = 0 := by
  cases frame with
  | none => rfl
  | some f =>
    cases hocr : f.ocr with
    | err => simp [extract_frame_number_with_confidence, hocr]
    | ok results =>
      cases hmax : pyMaxByConf results with
      | none => simp [extract_frame_number_with_confidence, hocr, hmax]
      | some best =>
        by_cases hd : pyIsdigit best.text
        · exfalso
          simp [extract_frame_number_with_confidence, hocr, hmax, hd] at h
        · simp [extract_frame_number_with_confidence, hocr, hmax, hd]

/-- Witness for C10 at a concrete frame (missing frame input). -/
theorem none_marker_zero_confidence_witness :
    (extract_frame_number_with_confidence none).2 = 0 :=
  none_marker_zero_confidence none rfl

/-- C4: `find_sync_point` always produces a sync timestamp: the transition
scan's answer when there is one, otherwise the fallback difference method's
timestamp; a `none` overall result is impossible. -/
theorem find_sync_point_total (fps seek : ℚ) (frames : List VideoFrame) :
    find_sync_point fps seek frames =
      some ((find_sync_scan fps seek frames).getD (find_sync_point_fallback fps seek frames)) ∧
    (find_sync_point fps seek frames).isSome = true := by
  cases h : find_sync_scan fps seek frames with
  | none => simp [find_sync_point, h]
  | some t => simp [find_sync_point, h]

/-- C3: a frame with a non-qualifying detection (no marker, or confidence not
strictly above one half) leaves the loop state `(last_frame_number,
last_confidence)` untouched: scanning it is the same as continuing on the
remaining frames with the state unchanged. -/
theorem nonqualifying_preserves_state (fps seek : ℚ) (f : VideoFrame)
    (fs : List VideoFrame) (fc : ℕ) (lastFn : Option ℕ) (lastConf : Option ℚ)
    (hq : qualPair f = none)
    (hwin : ¬ (seek + 30) * fps < ((fc + 1 : ℕ) : ℚ)) :
    syncLoop fps seek (f :: fs) fc lastFn lastConf =
      syncLoop fps seek fs (fc + 1) lastFn lastConf := by
  cases hex : extract_frame_number_with_confidence (some f) with
  | mk fn conf =>
    cases fn with
    | none =>
      simp only [syncLoop, hex]
      rw [if_neg hwin]
    | some n =>
      have hc : ¬ (1/2 : ℚ) < conf := by
        intro hlt
        simp [qualPair, hex, hlt] at hq
        linarith
      simp only [syncLoop, hex]
      rw [if_neg hc, if_neg hwin]

/-- Witness for C3: a low-confidence detection between qualifying ones leaves
the remembered detection `(5, 0.9)` in place. -/
theorem nonqualifying_preserves_state_witness :
    syncLoop 30 0 [⟨OCRRead.ok [⟨['5'], 3/10⟩], []⟩] 0 (some 5) (some (9/10)) =
      syncLoop 30 0 [] 1 (some 5) (some (9/10)) :=
  nonqualifying_preserves_state 30 0 ⟨OCRRead.ok [⟨['5'], 3/10⟩], []⟩ [] 0
    (some 5) (some (9/10))
    (by norm_num [qualPair, extract_frame_number_with_confidence, pyMaxByConf, pyIsdigit,
      show ('5').isDigit = true from by decide])
    (by norm_num)

/-- C6 counterexample: the seek value handed to the transcoder is the
truncated `int(start_time)`, which differs from `max(0, round(offset) +
buffer)` at `offset = 0`, `buffer = 0.5`. -/
theorem trim_seek_arg_ne_start_time :
    trim_seek_arg 0 (1/2) = 0 ∧ trim_start_time 0 (1/2) = 1/2 ∧
      ((trim_seek_arg 0 (1/2) : ℚ)) ≠ trim_start_time 0 (1/2) := by
  refine ⟨?_, ?_, ?_⟩ <;> norm_num [trim_seek_arg, trim_start_time, pyInt, pyRound]

/-- C6 (amended): the transcoder seek argument is
`int(max(0, round(offset) + buffer))`; over the stated ranges it is always
nonnegative and never exceeds `round(offset) + buffer` when that value is
nonnegative. -/
theorem trim_seek_bounds (offset buffer : ℚ)
    (_h1 : -5 ≤ offset) (_h2 : offset ≤ 1000) (_h3 : 0 ≤ buffer) (_h4 : buffer ≤ 10) :
    0 ≤ trim_seek_arg offset buffer ∧
      (0 ≤ (pyRound offset : ℚ) + buffer →
        (trim_seek_arg offset buffer : ℚ) ≤ (pyRound offset : ℚ) + buffer) := by
  have hst : 0 ≤ trim_start_time offset buffer := le_max_left 0 _
  constructor
  · have : trim_seek_arg offset buffer = ⌊trim_start_time offset buffer⌋ := by
      simp [trim_seek_arg, pyInt, hst]
    rw [this]
    exact_mod_cast Int.le_floor.mpr (by exact_mod_cast hst)
  · intro hnn
    have hmax : trim_start_time offset buffer = (pyRound offset : ℚ) + buffer :=
      max_eq_right hnn
    have : trim_seek_arg offset buffer = ⌊trim_start_time offset buffer⌋ := by
      simp [trim_seek_arg, pyInt, hst]
    rw [this, hmax]
    exact Int.floor_le _

/-- Witness for C6 (amended) at `offset = -5`, `buffer = 1/2`. -/
theorem trim_seek_bounds_witness :
    0 ≤ trim_seek_arg (-5) (1/2) ∧
      (0 ≤ (pyRound (-5) : ℚ) + 1/2 →
        (trim_seek_arg (-5) (1/2) : ℚ) ≤ (pyRound (-5) : ℚ) + 1/2) :=
  trim_seek_bounds (-5) (1/2) (by norm_num) (by norm_num) (by norm_num) (by norm_num)

/-- C8: when the reference locator succeeds at frame index `pos`, the offset
handed to the quality-metric stage is `pos / 30.0` — the constant 30 fps, for
every actual reference frame rate `refFps` — and the offset is nonnegative. -/
theorem vmaf_offset_thirty_fps (refFps : ℚ) (refFrames : List (List OCRResult))
    (n pos : ℕ) (h : find_frame_in_original_video refFps refFrames n = some pos) :
    (process_alignment refFps refFrames (some n)).1 = (pos : ℚ) / 30 ∧
      StageEvent.vmafInvoke ((pos : ℚ) / 30) ∈ (process_alignment refFps refFrames (some n)).2 ∧
      0 ≤ (process_alignment refFps refFrames (some n)).1 := by
  refine ⟨by simp [process_alignment, h], by simp [process_alignment, h], ?_⟩
  simp only [process_alignment, h]
  positivity

/-- Witness for C8: marker 7 located at reference frame index 1 gives offset
`1/30`. -/
theorem vmaf_offset_thirty_fps_witness :
    (process_alignment 30 [[], [⟨['7'], 9/10⟩]] (some 7)).1 = ((1 : ℕ) : ℚ) / 30 ∧
      StageEvent.vmafInvoke (((1 : ℕ) : ℚ) / 30) ∈
        (process_alignment 30 [[], [⟨['7'], 9/10⟩]] (some 7)).2 ∧
      0 ≤ (process_alignment 30 [[], [⟨['7'], 9/10⟩]] (some 7)).1 :=
  vmaf_offset_thirty_fps 30 [[], [⟨['7'], 9/10⟩]] 7 1
    (by
      norm_num [find_frame_in_original_video, findFrameLoop, detect_number,
        pyMaxByConf, pyIsdigit, pyDigitsToNat, pyIntNat, pyInt,
        show ('7').isDigit = true from by decide, show ('7').toNat = 55 from by decide]
      decide)

/-- C9: post-trim and localization failures are soft: a missing post-trim
marker degrades the offset to `0` and skips the reference-locate stage, and a
failed localization likewise degrades to `0`; in both cases the quality-metric
stage is still invoked. -/
theorem soft_failure_degrades (refFps : ℚ) (refFrames : List (List OCRResult)) :
    process_alignment refFps refFrames none = (0, [StageEvent.vmafInvoke 0]) ∧
      ∀ n, find_frame_in_original_video refFps refFrames n = none →
        process_alignment refFps refFrames (some n) =
          (0, [StageEvent.referenceLocate n, StageEvent.vmafInvoke 0]) := by
  refine ⟨rfl, fun n hn => ?_⟩
  simp [process_alignment, hn]

/-- Witness for C9: an empty reference scan yields offset `0` while the metric
stage is still invoked. -/
theorem soft_failure_degrades_witness :
    process_alignment 30 [] (some 7) =
      (0, [StageEvent.referenceLocate 7, StageEvent.vmafInvoke 0]) :=
  (soft_failure_degrades 30 []).2 7 (by simp [find_frame_in_original_video, findFrameLoop])

/-- C2: on a frame pair with detected markers `n ≠ m`, the scan declares a
transition exactly when both confidences are strictly above one half; a
confidence of exactly one half on either side never qualifies. -/
theorem confidence_strict_gate (f g : VideoFrame) (n m : ℕ) (cn cm : ℚ)
    (hf : extract_frame_number_with_confidence (some f) = (some n, cn))
    (hg : extract_frame_number_with_confidence (some g) = (some m, cm))
    (hnm : n ≠ m) :
    find_sync_scan 30 0 [f, g] =
      if 1/2 < cn ∧ 1/2 < cm then some (1/30) else none := by
  by_cases h1 : (1/2 : ℚ) < cn <;> by_cases h2 : (1/2 : ℚ) < cm <;>
    norm_num [find_sync_scan, startCount, syncLoop, hf, hg, h1, h2, hnm]

/-- Witness for C2: confidence exactly `0.5` on the first marker blocks the
transition, while `0.5000001` on both lets it fire at the second frame. -/
theorem confidence_strict_gate_witness :
    find_sync_scan 30 0
        [⟨OCRRead.ok [⟨['1'], 1/2⟩], []⟩, ⟨OCRRead.ok [⟨['2'], 9/10⟩], []⟩] = none ∧
      find_sync_scan 30 0
        [⟨OCRRead.ok [⟨['1'], 5000001/10000000⟩], []⟩,
          ⟨OCRRead.ok [⟨['2'], 5000001/10000000⟩], []⟩] = some (1/30) := by
  have e1 : extract_frame_number_with_confidence
      (some ⟨OCRRead.ok [⟨['1'], 1/2⟩], []⟩) = (some 1, 1/2) := by
    norm_num [extract_frame_number_with_confidence, pyMaxByConf, pyIsdigit, pyDigitsToNat,
      show ('1').isDigit = true from by decide, show ('1').toNat = 49 from by decide]
  have e2 : extract_frame_number_with_confidence
      (some ⟨OCRRead.ok [⟨['2'], 9/10⟩], []⟩) = (some 2, 9/10) := by
    norm_num [extract_frame_number_with_confidence, pyMaxByConf, pyIsdigit, pyDigitsToNat,
      show ('2').isDigit = true from by decide, show ('2').toNat = 50 from by decide]
  have e3 : extract_frame_number_with_confidence
      (some ⟨OCRRead.ok [⟨['1'], 5000001/10000000⟩], []⟩) = (some 1, 5000001/10000000) := by
    norm_num [extract_frame_number_with_confidence, pyMaxByConf, pyIsdigit, pyDigitsToNat,
      show ('1').isDigit = true from by decide, show ('1').toNat = 49 from by decide]
  have e4 : extract_frame_number_with_confidence
      (some ⟨OCRRead.ok [⟨['2'], 5000001/10000000⟩], []⟩) = (some 2, 5000001/10000000) := by
    norm_num [extract_frame_number_with_confidence, pyMaxByConf, pyIsdigit, pyDigitsToNat,
      show ('2').isDigit = true from by decide, show ('2').toNat = 50 from by decide]
  constructor
  · rw [confidence_strict_gate _ _ 1 2 (1/2) (9/10) e1 e2 (by norm_num)]
    norm_num
  · rw [confidence_strict_gate _ _ 1 2 (5000001/10000000) (5000001/10000000) e3 e4
      (by norm_num)]
    norm_num

/-- Helper: the locator loop is the first-index search over the frames that
fit in the remaining window. -/
theorem findFrameLoop_eq_findIdx (target limit : ℕ) :
    ∀ (frames : List (List OCRResult)) (fc : ℕ),
      findFrameLoop target limit frames fc =
        (frames.take (limit - fc)).findIdx? (fun f => detect_number f == some target) fc := by
  intro frames
  induction frames with
  | nil => intro fc; simp [findFrameLoop]
  | cons f fs ih =>
    intro fc
    by_cases h : fc < limit
    · have htake : limit - fc = (limit - (fc + 1)) + 1 := by omega
      rw [htake, List.take_succ_cons, List.findIdx?_cons]
      by_cases hd : detect_number f = some target
      · simp [findFrameLoop, h, hd]
      · simp [findFrameLoop, h, hd, ih]
    · have h0 : limit - fc = 0 := by omega
      simp [findFrameLoop, h, h0]

/-- C7: the reference locator is the first-index search for an exact marker
match over exactly the first `int(fps * 60)` frames — later frames are never
consulted — and its per-frame detection has no confidence gate: a digit text
is detected at every confidence. -/
theorem locator_first_match (fps : ℚ) (frames : List (List OCRResult)) (target : ℕ) :
    find_frame_in_original_video fps frames target =
        (frames.take (pyIntNat (fps * 60))).findIdx?
          (fun f => detect_number f == some target) ∧
      ∀ t c, pyIsdigit t = true → detect_number [⟨t, c⟩] = some (pyDigitsToNat t) := by
  constructor
  · have h := findFrameLoop_eq_findIdx target (pyIntNat (fps * 60)) frames 0
    simpa [find_frame_in_original_video] using h
  · intro t c hdig
    simp [detect_number, pyMaxByConf, hdig]

/-- Witness for C7: a marker read at confidence `0` still matches, and the
locator finds it at the first frame. -/
theorem locator_first_match_witness :
    detect_number [⟨['7'], 0⟩] = some (pyDigitsToNat ['7']) :=
  (locator_first_match 30 [] 7).2 ['7'] 0 (by decide)

/-- Helper: `fallbackLoop` only ever consumes the frames that fit in the
remaining window. -/
theorem fallbackLoop_eq_run (analyze : ℕ) :
    ∀ (frames : List (List ℕ)) (fc : ℕ) (prev : Option (List ℕ)) (md sf : ℕ),
      fallbackLoop analyze frames fc prev md sf =
        fallbackRun (frames.take (analyze - fc)) fc prev md sf := by
  intro frames
  induction frames with
  | nil => intro fc prev md sf; simp [fallbackLoop, fallbackRun]
  | cons f fs ih =>
    intro fc prev md sf
    by_cases h : fc < analyze
    · have htake : analyze - fc = (analyze - (fc + 1)) + 1 := by omega
      rw [htake, List.take_succ_cons]
      cases prev with
      | none => simp [fallbackLoop, fallbackRun, h, ih]
      | some p => by_cases hd : md < diffScore f p <;> simp [fallbackLoop, fallbackRun, h, hd, ih]
    · have h0 : analyze - fc = 0 := by omega
      simp [fallbackLoop, fallbackRun, h, h0]

/-- Helper: once a predecessor frame is remembered, the fallback loop is the
running-maximum fold over the consecutive-difference scores. -/
theorem fallbackRun_eq_runFold :
    ∀ (frames : List (List ℕ)) (fc : ℕ) (p : List ℕ) (md sf : ℕ),
      fallbackRun frames fc (some p) md sf = runFold (consDiffs p frames) fc md sf := by
  intro frames
  induction frames with
  | nil => intro fc p md sf; rfl
  | cons f fs ih =>
    intro fc p md sf
    by_cases hd : md < diffScore f p <;> simp [fallbackRun, runFold, consDiffs, hd, ih]

/-- Helper: the second component of `runFold` is the running maximum. -/
theorem runFold_snd :
    ∀ (ds : List ℕ) (fc md sf : ℕ), (runFold ds fc md sf).2 = ds.foldl max md := by
  intro ds
  induction ds with
  | nil => intro fc md sf; rfl
  | cons d ds ih =>
    intro fc md sf
    by_cases hd : md < d
    · simp [runFold, hd, ih, Nat.max_eq_right (Nat.le_of_lt hd)]
    · simp [runFold, hd, ih, Nat.max_eq_left (Nat.le_of_not_lt hd)]

/-- Helper: with no score above the running maximum, `runFold` is inert. -/
theorem runFold_const :
    ∀ (ds : List ℕ) (fc md sf : ℕ), (∀ d ∈ ds, d ≤ md) → runFold ds fc md sf = (sf, md) := by
  intro ds
  induction ds with
  | nil => intro fc md sf _; rfl
  | cons d ds ih =>
    intro fc md sf h
    have hd : ¬ md < d := Nat.not_lt.mpr (h d (List.mem_cons_self d ds))
    simp only [runFold, if_neg hd]
    exact ih (fc + 1) md sf fun x hx => h x (List.mem_cons_of_mem d hx)

/-- Helper: the initial accumulator bounds the fold of `max`. -/
theorem le_foldl_max :
    ∀ (ds : List ℕ) (a : ℕ), a ≤ ds.foldl max a := by
  intro ds
  induction ds with
  | nil => intro a; exact Nat.le_refl a
  | cons d ds ih =>
    intro a
    exact Nat.le_trans (Nat.le_max_left a d) (ih (max a d))

/-- Helper: every list element bounds the fold of `max` from below. -/
theorem mem_le_foldl_max :
    ∀ (ds : List ℕ) (a : ℕ), ∀ x ∈ ds, x ≤ ds.foldl max a := by
  intro ds
  induction ds with
  | nil => intro a x hx; cases hx
  | cons d ds ih =>
    intro a x hx
    rcases List.mem_cons.mp hx with rfl | hx
    · exact Nat.le_trans (Nat.le_max_right a x) (le_foldl_max ds (max a x))
    · exact ih (max a d) x hx

/-- Helper: when the scores improve on the running maximum, `runFold` lands on
an index achieving the final maximum. -/
theorem runFold_fst_mem :
    ∀ (ds : List ℕ) (fc md sf : ℕ), md < ds.foldl max md →
      ∃ k, ∃ h : k < ds.length,
        ds.get ⟨k, h⟩ = (runFold ds fc md sf).2 ∧ (runFold ds fc md sf).1 = fc + k := by
  intro ds
  induction ds with
  | nil => intro fc md sf h; exact absurd h (Nat.lt_irrefl md)
  | cons d ds ih =>
    intro fc md sf hlt
    by_cases hd : md < d
    · by_cases hmore : d < ds.foldl max d
      · obtain ⟨k, hk, hEq, hFst⟩ := ih (fc + 1) d fc hmore
        refine ⟨k + 1, by simpa using Nat.succ_lt_succ hk, ?_, ?_⟩
        · simpa [runFold, hd] using hEq
        · simp only [runFold, if_pos hd] at hFst ⊢
          omega
      · have hall : ∀ x ∈ ds, x ≤ d := by
          intro x hx
          have hfold : ds.foldl max d = d :=
            Nat.le_antisymm (Nat.le_of_not_lt hmore) (le_foldl_max ds d)
          simpa [hfold] using mem_le_foldl_max ds d x hx
        refine ⟨0, by simp, ?_, ?_⟩
        · simp [runFold, hd, runFold_const ds (fc + 1) d fc hall]
        · simp [runFold, hd, runFold_const ds (fc + 1) d fc hall]
    · have hlt2 : md < ds.foldl max md := by
        have : max md d = md := Nat.max_eq_left (Nat.le_of_not_lt hd)
        simpa [List.foldl_cons, this] using hlt
      obtain ⟨k, hk, hEq, hFst⟩ := ih (fc + 1) md sf hlt2
      refine ⟨k + 1, by simpa using Nat.succ_lt_succ hk, ?_, ?_⟩
      · simpa [runFold, hd] using hEq
      · simp only [runFold, if_neg hd] at hFst ⊢
        omega

/-- C5: the fallback difference method returns the timestamp of a frame
achieving the maximum consecutive-difference score over its window
(`consDiffs` entry `k` belongs to frame `startCount + 1 + k`), and, when every
consecutive difference is zero, the timestamp of the first compared frame. -/
theorem fallback_max_difference (fps seek : ℚ) (frames : List VideoFrame)
    (w : List ℕ) (ws : List (List ℕ))
    (hW : (frames.map VideoFrame.gray).take (pyIntNat (fps * 10)) = w :: ws) :
    ((∀ d ∈ consDiffs w ws, d = 0) →
        find_sync_point_fallback fps seek frames = ((startCount fps seek : ℕ) : ℚ) / fps) ∧
      ((∃ d ∈ consDiffs w ws, 0 < d) →
        ∃ k, ∃ h : k < (consDiffs w ws).length,
          (∀ j (hj : j < (consDiffs w ws).length),
              (consDiffs w ws).get ⟨j, hj⟩ ≤ (consDiffs w ws).get ⟨k, h⟩) ∧
            find_sync_point_fallback fps seek frames =
              ((startCount fps seek + 1 + k : ℕ) : ℚ) / fps) := by
  have hwindow : startCount fps seek + pyIntNat (fps * 10) - startCount fps seek =
      pyIntNat (fps * 10) := by omega
  have hcore : find_sync_point_fallback fps seek frames =
      ((runFold (consDiffs w ws) (startCount fps seek + 1) 0 (startCount fps seek)).1 : ℚ) /
        fps := by
    rw [find_sync_point_fallback, fallbackLoop_eq_run, hwindow, hW]
    rw [show fallbackRun (w :: ws) (startCount fps seek) none 0 (startCount fps seek) =
        fallbackRun ws (startCount fps seek + 1) (some w) 0 (startCount fps seek) from rfl]
    rw [fallbackRun_eq_runFold]
  constructor
  · intro hzero
    rw [hcore,
      runFold_const (consDiffs w ws) (startCount fps seek + 1) 0 (startCount fps seek)
        fun d hd => Nat.le_of_eq (hzero d hd)]
  · intro hpos
    obtain ⟨d, hd, hdpos⟩ := hpos
    have hltfold : 0 < (consDiffs w ws).foldl max 0 :=
      Nat.lt_of_lt_of_le hdpos (mem_le_foldl_max (consDiffs w ws) 0 d hd)
    obtain ⟨k, hk, hEq, hFst⟩ :=
      runFold_fst_mem (consDiffs w ws) (startCount fps seek + 1) 0 (startCount fps seek) hltfold
    refine ⟨k, hk, ?_, ?_⟩
    · intro j hj
      rw [hEq, runFold_snd]
      exact mem_le_foldl_max (consDiffs w ws) 0 _ (List.get_mem _ _ _)
    · rw [hcore, hFst]

/-- Witness for C5: three frames with gray values `[0], [0], [5]`; the single
positive difference sits at comparison index 1, frame index 2. -/
theorem fallback_max_difference_witness :
    ∃ k, ∃ h : k < (consDiffs [0] [[0], [5]]).length,
      (∀ j (hj : j < (consDiffs [0] [[0], [5]]).length),
          (consDiffs [0] [[0], [5]]).get ⟨j, hj⟩ ≤ (consDiffs [0] [[0], [5]]).get ⟨k, h⟩) ∧
        find_sync_point_fallback 1 0
            [⟨OCRRead.ok [], [0]⟩, ⟨OCRRead.ok [], [0]⟩, ⟨OCRRead.ok [], [5]⟩] =
          ((startCount 1 0 + 1 + k : ℕ) : ℚ) / 1 :=
  (fallback_max_difference 1 0
      [⟨OCRRead.ok [], [0]⟩, ⟨OCRRead.ok [], [0]⟩, ⟨OCRRead.ok [], [5]⟩] [0] [[0], [5]]
      (by
        have h10 : pyIntNat ((1 : ℚ) * 10) = 10 := by
          norm_num [pyIntNat, pyInt]
          decide
        rw [h10]
        decide)).2
    (by decide)

end VideoSync
